import Mathlib

/-
Verification of the theta-rule decay solver (`src/decay.py`) against its
natural-language specification.  The numeric code is embedded shallowly over
the real numbers (exact arithmetic): Python floats become `ℝ`, numpy arrays
become `List ℝ`, and Python's `round` (round-half-to-even on floats) becomes
`pyRound` below.
-/

namespace Decay

noncomputable section

/-- Python's built-in `round`, which rounds half-way cases to the nearest
even integer (banker's rounding); away from half-way points it is ordinary
rounding to the nearest integer. -/
def pyRound (x : ℝ) : ℤ :=
  if Int.fract x = 1 / 2 then (if Even ⌊x⌋ then ⌊x⌋ else ⌊x⌋ + 1) else round x

/-- Embedding of `Nt = int(round(T/dt))` from `solver` (decay.py line 10), the number of
time intervals.  The cast `Int.toNat` reflects that `np.zeros(Nt+1)` and
`range(0, Nt)` only make sense for a non-negative interval count (for the
claims at hand `T > 0` and `dt > 0`, so `pyRound (T/dt) ≥ 0` and nothing is
clamped). -/
def solverNt (T dt : ℝ) : ℕ := (pyRound (T / dt)).toNat

/-- Embedding of `np.linspace(start, stop, num)`: `num` evenly spaced points from `start`
to `stop` inclusive, point `k` being `start + (stop-start)*k/(num-1)`.
For `num = 1` numpy returns the single point `start`; here `num - 1 = 0` and
real division by zero is zero, giving the same value. -/
def linspace (start stop : ℝ) (num : ℕ) : List ℝ :=
  (List.range num).map fun k : ℕ => start + (stop - start) * (k : ℝ) / ((num : ℝ) - 1)

/-- The recurrence computed by the loop of `solver` (decay.py lines 15-17):
`u[0] = I` and `u[n+1] = (1 - (1-theta)*a*dt) / (1 + theta*a*dt) * u[n]`. -/
def solverU (I a dt theta : ℝ) : ℕ → ℝ
  | 0 => I
  | n + 1 => (1 - (1 - theta) * a * dt) / (1 + theta * a * dt) * solverU I a dt theta n

/-- Embedding of `solver(I, a, T, dt, theta)` (decay.py lines 7-18): returns the pair of
the solution array `u` and the time mesh `t = np.linspace(0, Nt*dt, Nt+1)`. -/
def solver (I a T dt theta : ℝ) : List ℝ × List ℝ :=
  let Nt := solverNt T dt
  ((List.range (Nt + 1)).map (solverU I a dt theta),
    linspace 0 ((Nt : ℝ) * dt) (Nt + 1))

/-- The recurrence of `solver_with_logging` (decay.py line 84), whose
denominator is written `1 + theta*dt*a`. -/
def solverLoggingU (I a dt theta : ℝ) : ℕ → ℝ
  | 0 => I
  | n + 1 => (1 - (1 - theta) * a * dt) / (1 + theta * dt * a) * solverLoggingU I a dt theta n

/-- Embedding of `solver_with_logging(I, a, T, dt, theta)` (decay.py lines 73-94), with
the logging calls dropped: logging is a write-only observation side channel
and does not feed back into `u` or `t`. -/
def solver_with_logging (I a T dt theta : ℝ) : List ℝ × List ℝ :=
  let Nt := solverNt T dt
  ((List.range (Nt + 1)).map (solverLoggingU I a dt theta),
    linspace 0 ((Nt : ℝ) * dt) (Nt + 1))

/-- The recurrence of `solver_with_doctest` (decay.py line 244), whose
denominator is written `1 + theta*dt*a`. -/
def solverDoctestU (I a dt theta : ℝ) : ℕ → ℝ
  | 0 => I
  | n + 1 => (1 - (1 - theta) * a * dt) / (1 + theta * dt * a) * solverDoctestU I a dt theta n

/-- Embedding of `solver_with_doctest(I, a, T, dt, theta)` (decay.py lines 224-245). -/
def solver_with_doctest (I a T dt theta : ℝ) : List ℝ × List ℝ :=
  let Nt := solverNt T dt
  ((List.range (Nt + 1)).map (solverDoctestU I a dt theta),
    linspace 0 ((Nt : ℝ) * dt) (Nt + 1))

/-- Embedding of `u_exact(t, I, a) = I*np.exp(-a*t)` (decay.py lines 20-21). -/
def u_exact (t I a : ℝ) : ℝ := I * Real.exp (-a * t)

/-- Embedding of `u_discrete_exact(n, I, a, theta, dt) = I*A**n` with
`A = (1 - (1-theta)*a*dt)/(1 + theta*dt*a)` (decay.py lines 247-251). -/
def u_discrete_exact (n : ℕ) (I a theta dt : ℝ) : ℝ :=
  I * ((1 - (1 - theta) * a * dt) / (1 + theta * dt * a)) ^ n

/-- The denominator `1 + theta*a*dt` of the update factor in the loop body of
`solver` (decay.py line 17). -/
def solverDenom (a dt theta : ℝ) : ℝ := 1 + theta * a * dt

/-- The error norm `E = np.sqrt(dt*np.sum((u_exact(t, I, a) - u)**2))`
computed by `experiment_print_error` (decay.py lines 23-29) from a solver
output: the elementwise difference over the two equal-length arrays, squared,
summed, scaled by `dt`, under a square root. -/
def errorNorm (I a T dt theta : ℝ) : ℝ :=
  let p := solver I a T dt theta
  Real.sqrt (dt * (List.zipWith (fun tk uk => (u_exact tk I a - uk) ^ 2) p.2 p.1).sum)

/-! ### General lemmas about the embedding -/

theorem mapRange_getD {α : Type} (f : ℕ → α) (m n : ℕ) (d : α) (h : n < m) :
    ((List.range m).map f).getD n d = f n := by
  have hlen : n < ((List.range m).map f).length := by simpa using h
  rw [List.getD_eq_getElem _ _ hlen]
  simp

theorem solverU_eq (I a dt theta : ℝ) (n : ℕ) :
    solverU I a dt theta n = u_discrete_exact n I a theta dt := by
  induction n with
  | zero => simp [solverU, u_discrete_exact]
  | succ n ih =>
    rw [solverU, ih, u_discrete_exact, u_discrete_exact, pow_succ]
    ring_nf

theorem pyRound_le (x : ℝ) : (pyRound x : ℝ) ≤ x + 1 / 2 := by
  unfold pyRound
  split
  case isTrue h =>
    have hx : x = ⌊x⌋ + 1 / 2 := by
      have := Int.fract_add_floor x
      rw [Int.fract] at h
      linarith
    split <;> push_cast <;> linarith [Int.floor_le x]
  case isFalse h =>
    rw [round_eq]
    linarith [Int.floor_le (x + 1 / 2)]

theorem pyRound_nonneg (x : ℝ) (hx : 0 < x) : 0 ≤ pyRound x := by
  unfold pyRound
  split
  case isTrue h =>
    have hfl : (0:ℤ) ≤ ⌊x⌋ := by
      by_contra hneg
      push_neg at hneg
      have h1 : ⌊x⌋ ≤ -1 := by omega
      have h2 : x = ⌊x⌋ + 1 / 2 := by
        rw [Int.fract] at h; linarith
      have h3 : (⌊x⌋:ℝ) ≤ -1 := by exact_mod_cast h1
      linarith
    split <;> omega
  case isFalse h =>
    rw [round_eq]
    have h0 : (0:ℝ) ≤ x + 1 / 2 := by linarith
    exact Int.floor_nonneg.mpr h0

theorem solver_fst (I a T dt theta : ℝ) :
    (solver I a T dt theta).1 = (List.range (solverNt T dt + 1)).map (solverU I a dt theta) :=
  rfl

theorem solver_snd (I a T dt theta : ℝ) :
    (solver I a T dt theta).2 =
      linspace 0 ((solverNt T dt : ℝ) * dt) (solverNt T dt + 1) :=
  rfl

/-! ### The claims -/

/-- Claim C1: for every valid input (`I`, `a` real, `theta ∈ [0,1]`, `dt > 0`)
and every step index `n ≤ Nt`, the `n`-th element of the solution sequence
returned by `solver` equals `u_discrete_exact n I a theta dt = I * A^n`
with `A = (1 - (1-theta)*a*dt)/(1 + theta*a*dt)` — in exact arithmetic the
agreement is exact, hence well within the 1e-14 tolerance. -/
theorem discrete_recurrence_fidelity (I a T dt theta : ℝ)
    (htheta0 : 0 ≤ theta) (htheta1 : theta ≤ 1) (hdt : 0 < dt)
    (n : ℕ) (hn : n ≤ solverNt T dt) :
    (solver I a T dt theta).1.getD n 0 = u_discrete_exact n I a theta dt := by
  rw [solver_fst, mapRange_getD _ _ _ _ (Nat.lt_succ_of_le hn)]
  exact solverU_eq I a dt theta n

/-- Witness for C1 at `I=2, a=1, T=3, dt=1, theta=1/2, n=2`. -/
theorem discrete_recurrence_fidelity_witness :
    ((0:ℝ) ≤ 1/2 ∧ (1:ℝ)/2 ≤ 1 ∧ (0:ℝ) < 1 ∧ 2 ≤ solverNt 3 1) ∧
      (solver 2 1 3 1 (1/2)).1.getD 2 0 = u_discrete_exact 2 2 1 (1/2) 1 := by
  have hNt : solverNt 3 1 = 3 := by
    have hp : pyRound ((3:ℝ) / 1) = 3 := by norm_num [pyRound, Int.fract, round_eq]
    rw [solverNt, hp]
    rfl
  refine ⟨⟨by norm_num, by norm_num, by norm_num, by rw [hNt]; norm_num⟩, ?_⟩
  exact discrete_recurrence_fidelity 2 1 3 1 (1/2) (by norm_num) (by norm_num)
    (by norm_num) 2 (by rw [hNt]; norm_num)

/-- Claim C2: for every `T > 0` and `dt > 0` (and any `I`, `a`, `theta`),
`solver` returns sequences `u` and `t` with
`len(u) = len(t) = round(T/dt) + 1`. -/
theorem mesh_length_invariant (I a T dt theta : ℝ) (hT : 0 < T) (hdt : 0 < dt) :
    ((solver I a T dt theta).1.length : ℤ) = pyRound (T / dt) + 1 ∧
    ((solver I a T dt theta).2.length : ℤ) = pyRound (T / dt) + 1 := by
  have h0 : 0 ≤ pyRound (T / dt) := pyRound_nonneg _ (div_pos hT hdt)
  refine ⟨?_, ?_⟩
  · rw [solver_fst]
    simp only [List.length_map, List.length_range, solverNt]
    omega
  · rw [solver_snd]
    simp only [linspace, List.length_map, List.length_range, solverNt]
    omega

/-- Witness for C2 at `I=1, a=1, T=3, dt=1, theta=0`. -/
theorem mesh_length_invariant_witness :
    ((0:ℝ) < 3 ∧ (0:ℝ) < 1) ∧
      (((solver 1 1 3 1 0).1.length : ℤ) = pyRound ((3:ℝ) / 1) + 1 ∧
       ((solver 1 1 3 1 0).2.length : ℤ) = pyRound ((3:ℝ) / 1) + 1) :=
  ⟨⟨by norm_num, by norm_num⟩,
    mesh_length_invariant 1 1 3 1 0 (by norm_num) (by norm_num)⟩

/-- Claim C4: for every parameter choice (`T > 0`, `dt > 0`), the first
element of the solution sequence returned by `solver` equals `I` exactly. -/
theorem u0_invariant (I a T dt theta : ℝ) (hT : 0 < T) (hdt : 0 < dt) :
    (solver I a T dt theta).1.getD 0 0 = I := by
  rw [solver_fst, mapRange_getD _ _ _ _ (Nat.succ_pos _)]
  rfl

/-- Witness for C4 at `I=7, a=2, T=3, dt=1, theta=1`. -/
theorem u0_invariant_witness :
    ((0:ℝ) < 3 ∧ (0:ℝ) < 1) ∧ (solver 7 2 3 1 1).1.getD 0 0 = 7 :=
  ⟨⟨by norm_num, by norm_num⟩, u0_invariant 7 2 3 1 1 (by norm_num) (by norm_num)⟩

/-- Claim C3: the known numeric scenario `I=0.8, a=1.2, T=1.5, dt=0.5,
theta=0.5` produces the mesh `t = [0, 0.5, 1.0, 1.5]` and a length-4 solution
whose entries agree with `0.8, 0.43076923076923, 0.23195266272189,
0.12489758761948` to within `1e-12` (the exact values are
`0.8 * (7/13)^n`). -/
theorem known_numeric_scenario :
    (solver 0.8 1.2 1.5 0.5 0.5).2 = [0, 0.5, 1.0, 1.5] ∧
    (solver 0.8 1.2 1.5 0.5 0.5).1.length = 4 ∧
    |(solver 0.8 1.2 1.5 0.5 0.5).1.getD 0 0 - 0.8| < 1e-12 ∧
    |(solver 0.8 1.2 1.5 0.5 0.5).1.getD 1 0 - 0.43076923076923| < 1e-12 ∧
    |(solver 0.8 1.2 1.5 0.5 0.5).1.getD 2 0 - 0.23195266272189| < 1e-12 ∧
    |(solver 0.8 1.2 1.5 0.5 0.5).1.getD 3 0 - 0.12489758761948| < 1e-12 := by
  have hNt : solverNt 1.5 0.5 = 3 := by
    have hp : pyRound ((1.5:ℝ) / 0.5) = 3 := by norm_num [pyRound, Int.fract, round_eq]
    rw [solverNt, hp]
    rfl
  have hu : (solver 0.8 1.2 1.5 0.5 0.5).1 = [0.8, 28/65, 196/845, 1372/10985] := by
    rw [solver_fst, hNt]
    norm_num [List.range_succ, solverU]
  have ht : (solver 0.8 1.2 1.5 0.5 0.5).2 = [0, 0.5, 1.0, 1.5] := by
    rw [solver_snd, hNt]
    norm_num [linspace, List.range_succ]
  rw [hu, ht]
  refine ⟨rfl, rfl, ?_, ?_, ?_, ?_⟩ <;> · rw [List.getD, abs_lt]; norm_num

/-- Claim C5: the unstable Forward-Euler scenario `I=1, a=2, T=4, dt=1.2,
theta=0` (`a*dt = 2.4 > 2`) still returns a full length-`(Nt+1)` sequence in
which consecutive elements alternate in sign and `|u[n]|` grows strictly for
`n ≥ 1`; the exact values are `1, -1.4, 1.96, -2.744`. -/
theorem instability_scenario :
    (solver 1 2 4 1.2 0).1.length = solverNt 4 1.2 + 1 ∧
    ((solver 1 2 4 1.2 0).1.getD 0 0 * (solver 1 2 4 1.2 0).1.getD 1 0 < 0 ∧
     (solver 1 2 4 1.2 0).1.getD 1 0 * (solver 1 2 4 1.2 0).1.getD 2 0 < 0 ∧
     (solver 1 2 4 1.2 0).1.getD 2 0 * (solver 1 2 4 1.2 0).1.getD 3 0 < 0) ∧
    (|(solver 1 2 4 1.2 0).1.getD 1 0| < |(solver 1 2 4 1.2 0).1.getD 2 0| ∧
     |(solver 1 2 4 1.2 0).1.getD 2 0| < |(solver 1 2 4 1.2 0).1.getD 3 0|) := by
  have hNt : solverNt 4 1.2 = 3 := by
    have hp : pyRound ((4:ℝ) / 1.2) = 3 := by norm_num [pyRound, Int.fract, round_eq]
    rw [solverNt, hp]
    rfl
  have hu : (solver 1 2 4 1.2 0).1 = [1, -1.4, 1.96, -2.744] := by
    rw [solver_fst, hNt]
    norm_num [List.range_succ, solverU]
  have hlen : (solver 1 2 4 1.2 0).1.length = solverNt 4 1.2 + 1 := by
    rw [solver_fst]
    simp
  refine ⟨hlen, ⟨?_, ?_, ?_⟩, ?_, ?_⟩ <;>
    · rw [hu]
      simp only [List.getD]
      norm_num [abs_lt, abs_of_pos, abs_of_neg]

/-- Claim C6: with the integer-valued inputs `I=1, a=1, dt=2, theta=1, T=8`
the interval count comes from the exact ratio `T/dt`: `Nt = round(8/2) = 4`
(no truncating integer division — the embedding works in exact real
arithmetic, matching the `dt = float(dt)` coercion in the code), and the
returned solution agrees with `u_discrete_exact` exactly (hence within
1e-14). -/
theorem potential_integer_division_scenario :
    solverNt 8 2 = 4 ∧
    (solver 1 1 8 2 1).1 = (List.range (4 + 1)).map (fun n => u_discrete_exact n 1 1 1 2) := by
  have hNt : solverNt 8 2 = 4 := by
    have hp : pyRound ((8:ℝ) / 2) = 4 := by norm_num [pyRound, Int.fract, round_eq]
    rw [solverNt, hp]
    rfl
  refine ⟨hNt, ?_⟩
  rw [solver_fst, hNt]
  have hfun : solverU 1 1 2 1 = fun n => u_discrete_exact n 1 1 1 2 :=
    funext fun n => solverU_eq 1 1 2 1 n
  rw [hfun]

/-- Claim C8: the last mesh point returned by `solver` is `Nt*dt` with
`Nt = round(T/dt)`, and it never exceeds the requested `T` by more than
`dt/2`. -/
theorem mesh_endpoint_bound (I a T dt theta : ℝ) (hT : 0 < T) (hdt : 0 < dt) :
    (solver I a T dt theta).2.getD (solverNt T dt) 0 = (solverNt T dt : ℝ) * dt ∧
    (solverNt T dt : ℝ) * dt ≤ T + dt / 2 := by
  constructor
  · rw [solver_snd, linspace, mapRange_getD _ _ _ _ (Nat.lt_succ_self _)]
    push_cast
    rcases Nat.eq_zero_or_pos (solverNt T dt) with h | h
    · simp [h]
    · have hne : ((solverNt T dt : ℕ) : ℝ) ≠ 0 := by
        exact_mod_cast Nat.pos_iff_ne_zero.mp h
      field_simp
  · have h0 : 0 ≤ pyRound (T / dt) := pyRound_nonneg _ (div_pos hT hdt)
    have hcast : ((solverNt T dt : ℕ) : ℝ) = ((pyRound (T / dt) : ℤ) : ℝ) := by
      rw [solverNt]
      exact_mod_cast congrArg Int.toNat (rfl : pyRound (T / dt) = pyRound (T / dt)) ▸
        congrArg (fun z : ℤ => ((z : ℤ) : ℝ)) (Int.toNat_of_nonneg h0)
    rw [hcast]
    calc ((pyRound (T / dt) : ℤ) : ℝ) * dt
        ≤ (T / dt + 1 / 2) * dt := mul_le_mul_of_nonneg_right (pyRound_le _) hdt.le
      _ = T + dt / 2 := by
          rw [add_mul, div_mul_cancel₀ _ (ne_of_gt hdt)]
          ring

/-- Witness for C8 at `I=1, a=1, T=3, dt=1, theta=0`. -/
theorem mesh_endpoint_bound_witness :
    ((0:ℝ) < 3 ∧ (0:ℝ) < 1) ∧
      ((solver 1 1 3 1 0).2.getD (solverNt 3 1) 0 = (solverNt 3 1 : ℝ) * 1 ∧
       (solverNt 3 1 : ℝ) * 1 ≤ 3 + 1 / 2) :=
  ⟨⟨by norm_num, by norm_num⟩, mesh_endpoint_bound 1 1 3 1 0 (by norm_num) (by norm_num)⟩

theorem solverLoggingU_eq_solverU (I a dt theta : ℝ) (n : ℕ) :
    solverLoggingU I a dt theta n = solverU I a dt theta n := by
  induction n with
  | zero => rfl
  | succ n ih =>
    rw [solverLoggingU, solverU, ih]
    ring_nf

theorem solverDoctestU_eq_solverU (I a dt theta : ℝ) (n : ℕ) :
    solverDoctestU I a dt theta n = solverU I a dt theta n := by
  induction n with
  | zero => rfl
  | succ n ih =>
    rw [solverDoctestU, solverU, ih]
    ring_nf

/-- Claim C9: the three solver variants `solver`, `solver_with_logging`, and
`solver_with_doctest` return identical `(u, t)` pairs for every input with
`T > 0` and `dt > 0`; logging is only an observation side channel.  (Their
loop bodies differ only in writing `theta*dt*a` for `theta*a*dt`.) -/
theorem solver_variants_agree (I a T dt theta : ℝ) (hT : 0 < T) (hdt : 0 < dt) :
    solver_with_logging I a T dt theta = solver I a T dt theta ∧
    solver_with_doctest I a T dt theta = solver I a T dt theta := by
  constructor
  · rw [solver_with_logging, solver]
    have hfun : solverLoggingU I a dt theta = solverU I a dt theta :=
      funext fun n => solverLoggingU_eq_solverU I a dt theta n
    rw [hfun]
  · rw [solver_with_doctest, solver]
    have hfun : solverDoctestU I a dt theta = solverU I a dt theta :=
      funext fun n => solverDoctestU_eq_solverU I a dt theta n
    rw [hfun]

/-- Witness for C9 at `I=2, a=3, T=5, dt=1, theta=1/2`. -/
theorem solver_variants_agree_witness :
    ((0:ℝ) < 5 ∧ (0:ℝ) < 1) ∧
      (solver_with_logging 2 3 5 1 (1/2) = solver 2 3 5 1 (1/2) ∧
       solver_with_doctest 2 3 5 1 (1/2) = solver 2 3 5 1 (1/2)) :=
  ⟨⟨by norm_num, by norm_num⟩,
    solver_variants_agree 2 3 5 1 (1/2) (by norm_num) (by norm_num)⟩

/-- Claim C10: the division in the solver update is unguarded, but under the
precondition `theta ∈ [0,1]`, `dt > 0`, `a ≥ 0` the denominator
`1 + theta*a*dt` is at least 1, so the division-by-zero case is unreachable;
inputs with `theta*a*dt = -1` (possible only for `a < 0`) do make the
denominator zero. -/
theorem solver_denominator_safe (a dt theta : ℝ) :
    (0 ≤ theta → theta ≤ 1 → 0 < dt → 0 ≤ a → 1 ≤ solverDenom a dt theta) ∧
    (theta * a * dt = -1 → solverDenom a dt theta = 0) := by
  constructor
  · intro h0 h1 hdt ha
    have hprod : 0 ≤ theta * a * dt := mul_nonneg (mul_nonneg h0 ha) hdt.le
    rw [solverDenom]
    linarith
  · intro h
    rw [solverDenom, h]
    ring

/-- Witness for C10: the safe branch at `a=1, dt=1, theta=1/2` and the zero
denominator at `a=-1, dt=1, theta=1`. -/
theorem solver_denominator_safe_witness :
    (1:ℝ) ≤ solverDenom 1 1 (1/2) ∧ solverDenom (-1) 1 1 = 0 :=
  ⟨(solver_denominator_safe 1 1 (1/2)).1 (by norm_num) (by norm_num) (by norm_num)
      (by norm_num),
    (solver_denominator_safe (-1) 1 1).2 (by norm_num)⟩

theorem zipWith_map_range_sum (h : ℝ → ℝ → ℝ) (f g : ℕ → ℝ) (m : ℕ) :
    (List.zipWith h ((List.range m).map f) ((List.range m).map g)).sum =
      ∑ k in Finset.range m, h (f k) (g k) := by
  induction m with
  | zero => simp
  | succ m ih =>
    rw [List.range_succ, List.map_append, List.map_append,
        List.zipWith_append _ _ _ _ _ (by simp), List.sum_append,
        Finset.sum_range_succ, ih]
    simp

theorem exp_neg_eight_lt_pow : Real.exp (-8) < (5/9:ℝ)^10 := by
  have h27 : (2.7:ℝ) ≤ Real.exp 1 := by
    have h := Real.exp_one_gt_d9
    linarith
  have hpow : (2.7:ℝ)^8 ≤ Real.exp 1 ^ 8 := pow_le_pow_left₀ (by norm_num) h27 8
  have hexp8 : Real.exp 1 ^ 8 = Real.exp 8 := by
    rw [← Real.exp_nat_mul]
    norm_num
  have h1000 : (1000:ℝ) < Real.exp 8 := by
    rw [← hexp8]
    calc (1000:ℝ) < 2.7^8 := by norm_num
      _ ≤ _ := hpow
  have hpos : (0:ℝ) < Real.exp 8 := Real.exp_pos 8
  rw [Real.exp_neg, inv_eq_one_div, div_lt_iff₀ hpos]
  have hC : (1/1000:ℝ) < (5/9:ℝ)^10 := by norm_num
  nlinarith [h1000, hC, hpos]

/-- Claim C7: for the scenario `I=1, a=2, T=4, dt=0.4, theta=1` the error
norm computed from the solver output equals
`sqrt(dt * Σ_{k=0}^{Nt} (u_exact(t_k) - u_k)^2)` — a reduction over all
`Nt+1 = 11` points with uniform weight `dt` and mesh points `t_k = 0.4*k`,
with no endpoint special-casing — and this value is strictly positive (and
finite, as every real number is). -/
theorem error_norm_scenario :
    errorNorm 1 2 4 0.4 1 =
      Real.sqrt (0.4 * ∑ k in Finset.range 11,
        (u_exact (0.4 * k) 1 2 - solverU 1 2 0.4 1 k) ^ 2) ∧
    0 < errorNorm 1 2 4 0.4 1 := by
  have hNt : solverNt 4 0.4 = 10 := by
    have hp : pyRound ((4:ℝ) / 0.4) = 10 := by norm_num [pyRound, Int.fract, round_eq]
    rw [solverNt, hp]
    rfl
  have heval : errorNorm 1 2 4 0.4 1 =
      Real.sqrt (0.4 * ∑ k in Finset.range 11,
        (u_exact (0.4 * k) 1 2 - solverU 1 2 0.4 1 k) ^ 2) := by
    simp only [errorNorm]
    rw [solver_snd, solver_fst, hNt, linspace, zipWith_map_range_sum]
    congr 2
    apply Finset.sum_congr rfl
    intro k hk
    congr 2
    push_cast
    ring_nf
  refine ⟨heval, ?_⟩
  rw [heval]
  apply Real.sqrt_pos.mpr
  apply mul_pos (by norm_num)
  apply Finset.sum_pos'
  · intro i _
    exact sq_nonneg _
  · refine ⟨10, Finset.mem_range.mpr (by norm_num), ?_⟩
    have hs : solverU 1 2 0.4 1 10 = (5/9:ℝ)^10 := by
      rw [solverU_eq]
      norm_num [u_discrete_exact]
    have he : u_exact (0.4 * ((10:ℕ):ℝ)) 1 2 = Real.exp (-8) := by
      norm_num [u_exact]
    push_cast
    rw [hs]
    push_cast at he
    rw [he]
    nlinarith [exp_neg_eight_lt_pow]

end

end Decay
